import Mathlib

/-!
Verification of the code-action core of mesonlsp
(`src/liblangserver/codeactionvisitor.hpp`).

The header defines `createsLibrary` and `extractVariablename` inline; the
remaining members (the range predicate, the pattern recognizers and the
traversal driver) are only declared there, so they are modelled from the
design document, as marked on each definition.

The file is laid out as definitions first, theorems second.
-/

/-- A line/column position, as in the LSP protocol. -/
structure LSPPosition where
  line : Nat
  character : Nat
deriving DecidableEq, Repr

/-- A line/column interval supplied by the caller; `endPos` renders the
C++ field `end`, which is a Lean keyword. -/
structure LSPRange where
  start : LSPPosition
  endPos : LSPPosition
deriving DecidableEq, Repr

/-- Strict lexicographic order on positions. -/
def posLt (a b : LSPPosition) : Bool :=
  a.line < b.line || (a.line == b.line && a.character < b.character)

/-- Lexicographic order on positions. -/
def posLe (a b : LSPPosition) : Bool :=
  a.line < b.line || (a.line == b.line && a.character ≤ b.character)

/-- Modelled from the spec: the master range filter `inRange` (the header
only declares `bool inRange(const Node *node, bool add)`).  A node is
relevant iff its span overlaps the request range; spans are half-open, so a
node starting exactly at the range's end does not overlap. -/
def inRange (req nodeLoc : LSPRange) : Bool :=
  posLt nodeLoc.start req.endPos && posLt req.start nodeLoc.endPos

/-- Two ranges are disjoint when one ends at or before the other starts. -/
def rangeDisjoint (a b : LSPRange) : Bool :=
  posLe a.endPos b.start || posLe b.endPos a.start

/-- `rangeContains outer inner`: `outer` fully contains `inner`. -/
def rangeContains (outer inner : LSPRange) : Bool :=
  posLe outer.start inner.start && posLe inner.endPos outer.endPos

/-- The semantic model's record of one resolved function; `Function.id`
renders the C++ accessor `id()`. -/
structure Function where
  name : String

def Function.id (f : Function) : String := f.name

/-- Direct translation of `CodeActionVisitor::createsLibrary`. -/
def createsLibrary (func : Function) : Bool :=
  let name := Function.id func
  name == "static_library" || name == "shared_library" || name == "library"

/-- One text replacement of a source range. -/
structure TextEdit where
  range : LSPRange
  newText : String
deriving DecidableEq, Repr

/-- The result record handed back to the editor: a title plus text edits
scoped to a document URI. -/
structure CodeAction where
  title : String
  kind : String
  uri : String
  edits : List TextEdit
deriving DecidableEq, Repr

/-- The external project-wide index.  The core only reads from it; function
identities are already resolved onto the nodes, so the model keeps just an
identifying payload. -/
structure MesonTree where
  identifier : String

mutual
/-- The tagged-variant syntax tree, one constructor per `visit…` method of
the header.  Every node carries its source span; a function-call expression
also carries the resolved identity of its callee (`none` when the semantic
model could not resolve it). -/
inductive Node where
  | argumentList (loc : LSPRange) (args : NodeList)
  | arrayLiteral (loc : LSPRange) (args : NodeList)
  | assignmentStatement (loc : LSPRange) (lhs rhs : Node) (op : String)
  | binaryExpression (loc : LSPRange) (lhs rhs : Node) (op : String)
  | booleanLiteral (loc : LSPRange) (value : Bool)
  | buildDefinition (loc : LSPRange) (stmts : NodeList)
  | conditionalExpression (loc : LSPRange) (condition ifTrue ifFalse : Node)
  | dictionaryLiteral (loc : LSPRange) (values : NodeList)
  | functionExpression (loc : LSPRange) (idExpr : Node) (args : Node)
      (functionName : Option String)
  | idExpression (loc : LSPRange) (id : String)
  | integerLiteral (loc : LSPRange) (valueAsInt : Nat) (value : String)
  | iterationStatement (loc : LSPRange) (ids : NodeList) (expression : Node)
      (stmts : NodeList)
  | keyValueItem (loc : LSPRange) (key value : Node)
  | keywordItem (loc : LSPRange) (key value : Node)
  | methodExpression (loc : LSPRange) (obj : Node) (idExpr : Node) (args : Node)
  | selectionStatement (loc : LSPRange) (conditions : NodeList) (blocks : NodeList)
  | stringLiteral (loc : LSPRange) (id : String)
  | subscriptExpression (loc : LSPRange) (outer inner : Node)
  | unaryExpression (loc : LSPRange) (expression : Node) (op : String)
  | errorNode (loc : LSPRange) (message : String)
  | breakNode (loc : LSPRange)
  | continueNode (loc : LSPRange)
/-- Children lists, mutual with `Node` so that structural recursion and
induction stay available. -/
inductive NodeList where
  | nil
  | cons (head : Node) (tail : NodeList)
end

/-- `any` over a children list. -/
def NodeList.any (p : Node → Bool) : NodeList → Bool
  | .nil => false
  | .cons h t => p h || NodeList.any p t

/-- Direct translation of `CodeActionVisitor::extractVariablename`.  The
C++ member reads the non-owning back-reference `fExpr->parent`; following
the design document the back-reference is passed explicitly next to the
node, and each `dynamic_cast` becomes a pattern match.  The body never
inspects `fExpr` beyond its parent pointer, exactly as in the source. -/
def extractVariablename (fExpr : Node) (parent : Option Node) : Option String :=
  match parent with
  | none => none
  | some p =>
    match p with
    | Node.assignmentStatement _ lhs _ _ =>
      match lhs with
      | Node.idExpression _ id => some id
      | _ => none
    | _ => none

/-- The sixteen digit characters used when re-rendering a literal:
`'0'`–`'9'` then `'a'`–`'f'`. -/
def hexDigitChar (d : Nat) : Char :=
  if d < 10 then Char.ofNat (48 + d) else Char.ofNat (87 + d)

/-- Numeric value of a digit character, `none` on a non-digit. -/
def digitVal (c : Char) : Option Nat :=
  if 48 ≤ c.toNat ∧ c.toNat ≤ 57 then some (c.toNat - 48)
  else if 97 ≤ c.toNat ∧ c.toNat ≤ 102 then some (c.toNat - 87)
  else none

/-- Digit expansion of `v` in base `b`, most significant digit first; the
fuel argument keeps the recursion structural, `toBaseDigits` supplies
enough of it. -/
def toDigitsAux (b : Nat) : Nat → Nat → List Nat
  | 0, _ => []
  | fuel + 1, v => if v = 0 then [] else toDigitsAux b fuel (v / b) ++ [v % b]

/-- Digit expansion of `v` in base `b`; zero renders as the single digit
`0`. -/
def toBaseDigits (b v : Nat) : List Nat :=
  if v = 0 then [0] else toDigitsAux b v v

/-- Modelled from the spec: re-render the literal's parsed integer value in
base `b`, as bare digits without a base marker (the `val` argument of
`makeActionForBase`, whose body is not in the header). -/
def renderInBase (b v : Nat) : String :=
  String.mk ((toBaseDigits b v).map hexDigitChar)

/-- One left-to-right accumulation step of a base-`b` digit parse. -/
def digitStep (b : Nat) (acc : Option Nat) (c : Char) : Option Nat :=
  match acc, digitVal c with
  | some a, some d => if d < b then some (a * b + d) else none
  | _, _ => none

/-- Parse a digit string in base `b`; any non-digit or out-of-base digit
yields `none`. -/
def parseDigitsChars (b : Nat) (cs : List Char) : Option Nat :=
  cs.foldl (digitStep b) (some 0)

/-- Modelled from the spec: parse an integer literal's characters the way
the language's lexer does, honouring the `0x`, `0o` and `0b` base
markers; a bare marker with no digits is not a literal. -/
def parseIntChars : List Char → Option Nat
  | [] => none
  | [c] => parseDigitsChars 10 [c]
  | c0 :: c1 :: rest =>
    if c0 = '0' ∧ c1 = 'x' then
      if rest = [] then none else parseDigitsChars 16 rest
    else if c0 = '0' ∧ c1 = 'o' then
      if rest = [] then none else parseDigitsChars 8 rest
    else if c0 = '0' ∧ c1 = 'b' then
      if rest = [] then none else parseDigitsChars 2 rest
    else parseDigitsChars 10 (c0 :: c1 :: rest)

/-- Parse an integer literal, base markers included. -/
def parseIntegerLiteral (s : String) : Option Nat :=
  parseIntChars s.toList

/-- Modelled from the spec: `makeActionForBase` assembles one
base-conversion action; `pfx` renders the C++ parameter holding the base
marker (`0x`, `0o`, `0b` or empty) and `val` the re-rendered digits, the
edit replacing the literal's whole span. -/
def makeActionForBase (uri : String) (ilLoc : LSPRange) (title pfx val : String) :
    CodeAction :=
  { title := title, kind := "refactor", uri := uri,
    edits := [{ range := ilLoc, newText := pfx ++ val }] }

/-- The four textual bases offered: title, base marker, radix. -/
def baseVariants : List (String × String × Nat) :=
  [("Convert to decimal literal", "", 10),
   ("Convert to hexadecimal literal", "0x", 16),
   ("Convert to octal literal", "0o", 8),
   ("Convert to binary literal", "0b", 2)]

/-- Modelled from the spec: for an integer literal, offer one action per
textual base whose rendering differs from the literal's current text, each
action re-rendering the parsed value (never string surgery). -/
def makeIntegerToBaseAction (uri : String) (loc : LSPRange) (v : Nat) (text : String) :
    List CodeAction :=
  (baseVariants.filter fun bv => (bv.2.1 ++ renderInBase bv.2.2 v) != text).map
    fun bv => makeActionForBase uri loc bv.1 bv.2.1 (renderInBase bv.2.2 v)

/-- The source span a node occupies. -/
def Node.loc : Node → LSPRange
  | Node.argumentList loc _ => loc
  | Node.arrayLiteral loc _ => loc
  | Node.assignmentStatement loc _ _ _ => loc
  | Node.binaryExpression loc _ _ _ => loc
  | Node.booleanLiteral loc _ => loc
  | Node.buildDefinition loc _ => loc
  | Node.conditionalExpression loc _ _ _ => loc
  | Node.dictionaryLiteral loc _ => loc
  | Node.functionExpression loc _ _ _ => loc
  | Node.idExpression loc _ => loc
  | Node.integerLiteral loc _ _ => loc
  | Node.iterationStatement loc _ _ _ => loc
  | Node.keyValueItem loc _ _ => loc
  | Node.keywordItem loc _ _ => loc
  | Node.methodExpression loc _ _ _ => loc
  | Node.selectionStatement loc _ _ => loc
  | Node.stringLiteral loc _ => loc
  | Node.subscriptExpression loc _ _ => loc
  | Node.unaryExpression loc _ _ => loc
  | Node.errorNode loc _ => loc
  | Node.breakNode loc => loc
  | Node.continueNode loc => loc

/-- Does a call construct a `declare_dependency` object? -/
def isDeclareDependencyCall : Node → Bool
  | Node.functionExpression _ _ _ (some fname) => fname == "declare_dependency"
  | _ => false

/-- Does an argument list carry a keyword argument named `kw`? -/
def argsHaveKeyword (args : Node) (kw : String) : Bool :=
  match args with
  | Node.argumentList _ items =>
      NodeList.any (fun item =>
        match item with
        | Node.keywordItem _ (Node.idExpression _ key) _ => key == kw
        | _ => false) items
  | _ => false

/-- Modelled from the spec: does the enclosing scope already bind the
conventionally-derived dependency variable name to a `declare_dependency`
call? -/
def scopeHasDeclareDependency (scope : NodeList) (depName : String) : Bool :=
  NodeList.any (fun stmt =>
    match stmt with
    | Node.assignmentStatement _ (Node.idExpression _ id) rhs _ =>
        id == depName && isDeclareDependencyCall rhs
    | _ => false) scope

/-- Modelled from the spec: `makeDeclareDependencyAction` (body not in the
header) fires on a library-creating call that is the right-hand side of an
assignment to a bare identifier (via `extractVariablename`), derives the
counterpart name `<name>_dep`, and inserts a dependency declaration after
the call unless the enclosing scope already binds that name to a
`declare_dependency` call. -/
def makeDeclareDependencyAction (uri : String) (scope : NodeList) (n : Node)
    (parent : Option Node) : List CodeAction :=
  match n with
  | Node.functionExpression loc _ _ (some fname) =>
    if createsLibrary ⟨fname⟩ then
      match extractVariablename n parent with
      | some varname =>
        if scopeHasDeclareDependency scope (varname ++ "_dep") then []
        else [{ title := "Declare dependency " ++ varname ++ "_dep",
                kind := "refactor", uri := uri,
                edits := [{ range := ⟨loc.endPos, loc.endPos⟩,
                            newText := "\n" ++ varname ++ "_dep = declare_dependency(link_with: "
                              ++ varname ++ ")" }] }]
      | none => []
    else []
  | _ => []

/-- Modelled from the spec: `makeLibraryToGenericAction` (body not in the
header) — when the call target is `static_library` or `shared_library`,
emit one action rewriting the call's identifier to the generic `library`,
leaving the arguments untouched. -/
def makeLibraryToGenericAction (uri : String) (n : Node) : List CodeAction :=
  match n with
  | Node.functionExpression _ (Node.idExpression idLoc _) _ (some fname) =>
    if fname == "static_library" || fname == "shared_library" then
      [{ title := "Use library() instead of " ++ fname ++ "()",
         kind := "refactor", uri := uri,
         edits := [{ range := idLoc, newText := "library" }] }]
    else []
  | _ => []

/-- Modelled from the spec: the call after the convert-to-generic edit is
applied and the document re-parsed — the identifier now reads `library`
and resolves to the generic `library` function. -/
def applyLibraryToGeneric : Node → Node
  | Node.functionExpression loc (Node.idExpression idLoc _) args (some _) =>
      Node.functionExpression loc (Node.idExpression idLoc "library") args (some "library")
  | n => n

/-- Modelled from the spec: the canonical `copy_file` argument shape
carries an `install` keyword argument. -/
def expectedArgsForCopyFile (al : Node) : Bool :=
  argsHaveKeyword al "install"

/-- Modelled from the spec: `makeCopyFileAction` (body not in the header) —
when a `copy_file` call's argument list lacks the canonical shape, emit one
action rewriting the argument list into it. -/
def makeCopyFileAction (uri : String) (n : Node) : List CodeAction :=
  match n with
  | Node.functionExpression _ _ args (some fname) =>
    if fname == "copy_file" && !expectedArgsForCopyFile args then
      [{ title := "Add missing copy_file arguments", kind := "quickfix", uri := uri,
         edits := [{ range := Node.loc args, newText := "install: false" }] }]
    else []
  | _ => []

/-- Keyword arguments `shared_module` does not accept. -/
def moduleIncompatibleKeywords : List String :=
  ["version", "soversion", "darwin_versions"]

/-- Modelled from the spec: `makeSharedLibraryToModuleAction` (body not in
the header) — convert a `shared_library` call to `shared_module`, warning
in the title when incompatible version keywords would be dropped. -/
def makeSharedLibraryToModuleAction (uri : String) (n : Node) : List CodeAction :=
  match n with
  | Node.functionExpression _ (Node.idExpression idLoc _) args (some fname) =>
    if fname == "shared_library" then
      [{ title :=
          if moduleIncompatibleKeywords.any (argsHaveKeyword args) then
            "Use shared_module() instead of shared_library() (dropping incompatible keywords)"
          else "Use shared_module() instead of shared_library()",
         kind := "refactor", uri := uri,
         edits := [{ range := idLoc, newText := "shared_module" }] }]
    else []
  | _ => []

/-- Modelled from the spec: `makeModuleToSharedLibraryAction` (body not in
the header) — convert a `shared_module` call back to `shared_library`. -/
def makeModuleToSharedLibraryAction (uri : String) (n : Node) : List CodeAction :=
  match n with
  | Node.functionExpression _ (Node.idExpression idLoc _) _ (some fname) =>
    if fname == "shared_module" then
      [{ title := "Use shared_library() instead of shared_module()",
         kind := "refactor", uri := uri,
         edits := [{ range := idLoc, newText := "shared_library" }] }]
    else []
  | _ => []

/-- Modelled from the spec: the per-node dispatch of the traversal driver —
test range relevance first, then run the recognizers keyed to the node's
kind; marker nodes participate in traversal but have no recognizer. -/
def emitAt (range : LSPRange) (uri : String) (parent : Option Node) (scope : NodeList)
    (n : Node) : List CodeAction :=
  match n with
  | Node.integerLiteral loc v text =>
      if inRange range loc then makeIntegerToBaseAction uri loc v text else []
  | Node.functionExpression loc _ _ _ =>
      if inRange range loc then
        makeCopyFileAction uri n ++ makeDeclareDependencyAction uri scope n parent ++
          makeLibraryToGenericAction uri n ++ makeSharedLibraryToModuleAction uri n ++
          makeModuleToSharedLibraryAction uri n
      else []
  | _ => []

/-- The visitor object, a direct translation of the class's data members:
the accumulated action sequence plus the request-constant `range`, `uri`
and `tree` stored by the constructor. -/
structure CodeActionVisitor where
  actions : List CodeAction
  range : LSPRange
  uri : String
  tree : MesonTree

/-- Modelled from the spec: the statement scope used for adjacency checks
is the statement list of the nearest enclosing build definition. -/
def childScope (scope : NodeList) : Node → NodeList
  | Node.buildDefinition _ stmts => stmts
  | _ => scope

mutual
/-- Modelled from the spec: the traversal driver — a deterministic
pre-order walk that, at each node, appends that node's actions and then
unconditionally recurses into every child in source order.  The parent
back-reference and the enclosing scope are passed down as the explicit
ancestor context the design document recommends. -/
def visitNode (vis : CodeActionVisitor) (parent : Option Node) (scope : NodeList)
    (n : Node) : CodeActionVisitor :=
  let vis1 : CodeActionVisitor :=
    { vis with actions := vis.actions ++ emitAt vis.range vis.uri parent scope n }
  match n with
  | Node.argumentList _ args => visitList vis1 (some n) (childScope scope n) args
  | Node.arrayLiteral _ args => visitList vis1 (some n) (childScope scope n) args
  | Node.assignmentStatement _ lhs rhs _ =>
      visitNode (visitNode vis1 (some n) (childScope scope n) lhs) (some n)
        (childScope scope n) rhs
  | Node.binaryExpression _ lhs rhs _ =>
      visitNode (visitNode vis1 (some n) (childScope scope n) lhs) (some n)
        (childScope scope n) rhs
  | Node.booleanLiteral _ _ => vis1
  | Node.buildDefinition _ stmts => visitList vis1 (some n) (childScope scope n) stmts
  | Node.conditionalExpression _ c t f =>
      visitNode (visitNode (visitNode vis1 (some n) (childScope scope n) c) (some n)
        (childScope scope n) t) (some n) (childScope scope n) f
  | Node.dictionaryLiteral _ values => visitList vis1 (some n) (childScope scope n) values
  | Node.functionExpression _ idExpr args _ =>
      visitNode (visitNode vis1 (some n) (childScope scope n) idExpr) (some n)
        (childScope scope n) args
  | Node.idExpression _ _ => vis1
  | Node.integerLiteral _ _ _ => vis1
  | Node.iterationStatement _ ids expr stmts =>
      visitList (visitNode (visitList vis1 (some n) (childScope scope n) ids) (some n)
        (childScope scope n) expr) (some n) (childScope scope n) stmts
  | Node.keyValueItem _ k v =>
      visitNode (visitNode vis1 (some n) (childScope scope n) k) (some n)
        (childScope scope n) v
  | Node.keywordItem _ k v =>
      visitNode (visitNode vis1 (some n) (childScope scope n) k) (some n)
        (childScope scope n) v
  | Node.methodExpression _ obj idExpr args =>
      visitNode (visitNode (visitNode vis1 (some n) (childScope scope n) obj) (some n)
        (childScope scope n) idExpr) (some n) (childScope scope n) args
  | Node.selectionStatement _ conds blocks =>
      visitList (visitList vis1 (some n) (childScope scope n) conds) (some n)
        (childScope scope n) blocks
  | Node.stringLiteral _ _ => vis1
  | Node.subscriptExpression _ o i =>
      visitNode (visitNode vis1 (some n) (childScope scope n) o) (some n)
        (childScope scope n) i
  | Node.unaryExpression _ e _ => visitNode vis1 (some n) (childScope scope n) e
  | Node.errorNode _ _ => vis1
  | Node.breakNode _ => vis1
  | Node.continueNode _ => vis1
/-- The driver's recursion into a children list, front to back. -/
def visitList (vis : CodeActionVisitor) (parent : Option Node) (scope : NodeList) :
    NodeList → CodeActionVisitor
  | NodeList.nil => vis
  | NodeList.cons h t => visitList (visitNode vis parent scope h) parent scope t
end

/-- One step of the context-annotated pre-order walk: a node together with
the parent back-reference and statement scope in force when the driver
visits it. -/
structure VisitEntry where
  parent : Option Node
  scope : NodeList
  node : Node

/-- The actions one annotated step contributes. -/
def emitEntry (range : LSPRange) (uri : String) (e : VisitEntry) : List CodeAction :=
  emitAt range uri e.parent e.scope e.node

mutual
/-- The deterministic pre-order enumeration of the tree, each node
annotated with its traversal context. -/
def preorderCtx (parent : Option Node) (scope : NodeList) (n : Node) : List VisitEntry :=
  ⟨parent, scope, n⟩ ::
    (match n with
     | Node.argumentList _ args => preorderCtxList (some n) (childScope scope n) args
     | Node.arrayLiteral _ args => preorderCtxList (some n) (childScope scope n) args
     | Node.assignmentStatement _ lhs rhs _ =>
         preorderCtx (some n) (childScope scope n) lhs ++
           preorderCtx (some n) (childScope scope n) rhs
     | Node.binaryExpression _ lhs rhs _ =>
         preorderCtx (some n) (childScope scope n) lhs ++
           preorderCtx (some n) (childScope scope n) rhs
     | Node.booleanLiteral _ _ => []
     | Node.buildDefinition _ stmts => preorderCtxList (some n) (childScope scope n) stmts
     | Node.conditionalExpression _ c t f =>
         preorderCtx (some n) (childScope scope n) c ++
           preorderCtx (some n) (childScope scope n) t ++
           preorderCtx (some n) (childScope scope n) f
     | Node.dictionaryLiteral _ values => preorderCtxList (some n) (childScope scope n) values
     | Node.functionExpression _ idExpr args _ =>
         preorderCtx (some n) (childScope scope n) idExpr ++
           preorderCtx (some n) (childScope scope n) args
     | Node.idExpression _ _ => []
     | Node.integerLiteral _ _ _ => []
     | Node.iterationStatement _ ids expr stmts =>
         preorderCtxList (some n) (childScope scope n) ids ++
           preorderCtx (some n) (childScope scope n) expr ++
           preorderCtxList (some n) (childScope scope n) stmts
     | Node.keyValueItem _ k v =>
         preorderCtx (some n) (childScope scope n) k ++
           preorderCtx (some n) (childScope scope n) v
     | Node.keywordItem _ k v =>
         preorderCtx (some n) (childScope scope n) k ++
           preorderCtx (some n) (childScope scope n) v
     | Node.methodExpression _ obj idExpr args =>
         preorderCtx (some n) (childScope scope n) obj ++
           preorderCtx (some n) (childScope scope n) idExpr ++
           preorderCtx (some n) (childScope scope n) args
     | Node.selectionStatement _ conds blocks =>
         preorderCtxList (some n) (childScope scope n) conds ++
           preorderCtxList (some n) (childScope scope n) blocks
     | Node.stringLiteral _ _ => []
     | Node.subscriptExpression _ o i =>
         preorderCtx (some n) (childScope scope n) o ++
           preorderCtx (some n) (childScope scope n) i
     | Node.unaryExpression _ e _ => preorderCtx (some n) (childScope scope n) e
     | Node.errorNode _ _ => []
     | Node.breakNode _ => []
     | Node.continueNode _ => [])
/-- Context-annotated pre-order of a children list. -/
def preorderCtxList (parent : Option Node) (scope : NodeList) : NodeList → List VisitEntry
  | NodeList.nil => []
  | NodeList.cons h t => preorderCtx parent scope h ++ preorderCtxList parent scope t
end

mutual
/-- The deterministic pre-order enumeration of the tree's nodes, matching
source layout. -/
def preorder (n : Node) : List Node :=
  n ::
    (match n with
     | Node.argumentList _ args => preorderList args
     | Node.arrayLiteral _ args => preorderList args
     | Node.assignmentStatement _ lhs rhs _ => preorder lhs ++ preorder rhs
     | Node.binaryExpression _ lhs rhs _ => preorder lhs ++ preorder rhs
     | Node.booleanLiteral _ _ => []
     | Node.buildDefinition _ stmts => preorderList stmts
     | Node.conditionalExpression _ c t f => preorder c ++ preorder t ++ preorder f
     | Node.dictionaryLiteral _ values => preorderList values
     | Node.functionExpression _ idExpr args _ => preorder idExpr ++ preorder args
     | Node.idExpression _ _ => []
     | Node.integerLiteral _ _ _ => []
     | Node.iterationStatement _ ids expr stmts =>
         preorderList ids ++ preorder expr ++ preorderList stmts
     | Node.keyValueItem _ k v => preorder k ++ preorder v
     | Node.keywordItem _ k v => preorder k ++ preorder v
     | Node.methodExpression _ obj idExpr args =>
         preorder obj ++ preorder idExpr ++ preorder args
     | Node.selectionStatement _ conds blocks => preorderList conds ++ preorderList blocks
     | Node.stringLiteral _ _ => []
     | Node.subscriptExpression _ o i => preorder o ++ preorder i
     | Node.unaryExpression _ e _ => preorder e
     | Node.errorNode _ _ => []
     | Node.breakNode _ => []
     | Node.continueNode _ => [])
/-- Pre-order of a children list. -/
def preorderList : NodeList → List Node
  | NodeList.nil => []
  | NodeList.cons h t => preorder h ++ preorderList t
end

/-- Modelled from the spec: request validation — the range must be
well-formed, the uri non-empty and the project tree present. -/
def validRequest (range : LSPRange) (uri : String) (tree : Option MesonTree) : Bool :=
  posLe range.start range.endPos && uri != "" && tree.isSome

/-- Modelled from the spec: the entry point `collectCodeActions` — an
invalid range, uri or tree is rejected with the explicit invalid-request
signal before any traversal begins; otherwise one complete walk runs and
the visitor's accumulated sequence is returned. -/
def collectCodeActions (range : LSPRange) (uri : String) (tree : Option MesonTree)
    (root : Node) : Except String (List CodeAction) :=
  match tree with
  | none => Except.error "invalid request"
  | some t =>
    if posLe range.start range.endPos && uri != "" then
      Except.ok (visitNode ⟨[], range, uri, t⟩ none NodeList.nil root).actions
    else Except.error "invalid request"

/-- Sample call `static_library('mylib', sources)`, used to instantiate
theorems with hypotheses at concrete inputs. -/
def sampleStaticLibCall : Node :=
  Node.functionExpression ⟨⟨0, 4⟩, ⟨0, 30⟩⟩
    (Node.idExpression ⟨⟨0, 4⟩, ⟨0, 18⟩⟩ "static_library")
    (Node.argumentList ⟨⟨0, 18⟩, ⟨0, 30⟩⟩ NodeList.nil) (some "static_library")

/-- Sample enclosing assignment `mylib = static_library(…)`. -/
def sampleAssignment : Node :=
  Node.assignmentStatement ⟨⟨0, 0⟩, ⟨0, 30⟩⟩ (Node.idExpression ⟨⟨0, 0⟩, ⟨0, 5⟩⟩ "mylib")
    sampleStaticLibCall "="

/-- Sample scope that already binds `mylib_dep = declare_dependency(…)`. -/
def sampleDepScope : NodeList :=
  NodeList.cons
    (Node.assignmentStatement ⟨⟨1, 0⟩, ⟨1, 40⟩⟩ (Node.idExpression ⟨⟨1, 0⟩, ⟨1, 9⟩⟩ "mylib_dep")
      (Node.functionExpression ⟨⟨1, 12⟩, ⟨1, 40⟩⟩
        (Node.idExpression ⟨⟨1, 12⟩, ⟨1, 30⟩⟩ "declare_dependency")
        (Node.argumentList ⟨⟨1, 30⟩, ⟨1, 40⟩⟩ NodeList.nil) (some "declare_dependency")) "=")
    NodeList.nil

/-! ## Theorems -/

theorem posLt_iff (a b : LSPPosition) :
    posLt a b = true ↔ a.line < b.line ∨ (a.line = b.line ∧ a.character < b.character) := by
  simp [posLt]

theorem posLe_iff (a b : LSPPosition) :
    posLe a b = true ↔ a.line < b.line ∨ (a.line = b.line ∧ a.character ≤ b.character) := by
  simp [posLe]

theorem posLt_false_iff (a b : LSPPosition) :
    posLt a b = false ↔ ¬(a.line < b.line ∨ (a.line = b.line ∧ a.character < b.character)) := by
  rw [← posLt_iff]
  cases posLt a b <;> simp

theorem posLe_false_iff (a b : LSPPosition) :
    posLe a b = false ↔ ¬(a.line < b.line ∨ (a.line = b.line ∧ a.character ≤ b.character)) := by
  rw [← posLe_iff]
  cases posLe a b <;> simp

/-- C1: `createsLibrary` is true exactly on the three library-creating
function identifiers, and false on every other identifier, in particular
on `shared_module`. -/
theorem createsLibrary_spec :
    (∀ func : Function, createsLibrary func = true ↔
      (Function.id func = "static_library" ∨ Function.id func = "shared_library" ∨
        Function.id func = "library"))
    ∧ createsLibrary ⟨"shared_module"⟩ = false := by
  constructor
  · intro func
    simp [createsLibrary, or_assoc]
  · decide

/-- C2: `extractVariablename` yields a name exactly when the immediate
parent is an assignment statement whose left-hand side is a bare
identifier, and that name is the left-hand identifier's; in every other
case it yields `none`, the total function never signalling an error. -/
theorem extractVariablename_spec (fExpr : Node) (parent : Option Node) (s : String) :
    extractVariablename fExpr parent = some s ↔
      ∃ loc loc2 rhs op,
        parent = some (Node.assignmentStatement loc (Node.idExpression loc2 s) rhs op) := by
  constructor
  · intro h
    cases parent with
    | none => simp [extractVariablename] at h
    | some p =>
      cases p
      case assignmentStatement loc lhs rhs op =>
        cases lhs
        case idExpression loc2 id =>
          simp [extractVariablename] at h
          exact ⟨loc, loc2, rhs, op, by rw [h]⟩
        all_goals simp [extractVariablename] at h
      all_goals simp [extractVariablename] at h
  · rintro ⟨loc, loc2, rhs, op, rfl⟩
    simp [extractVariablename]

/-- C10: `extractVariablename` never checks that the function expression is
the assignment's right-hand side: whenever the supplied parent is an
assignment to a bare identifier it returns that identifier for any
`fExpr`, and concretely it does so for a parent assignment whose
right-hand side is a different node than `fExpr`. -/
theorem extractVariablename_ignores_rhs :
    (∀ fExpr loc loc2 x rhs op,
      extractVariablename fExpr
        (some (Node.assignmentStatement loc (Node.idExpression loc2 x) rhs op)) = some x)
    ∧ (∃ fExpr other loc loc2 op,
        other ≠ fExpr ∧
        extractVariablename fExpr
          (some (Node.assignmentStatement loc (Node.idExpression loc2 "x") other op)) =
            some "x") := by
  constructor
  · intro fExpr loc loc2 x rhs op
    simp [extractVariablename]
  · refine ⟨Node.functionExpression ⟨⟨0, 4⟩, ⟨0, 20⟩⟩
      (Node.idExpression ⟨⟨0, 4⟩, ⟨0, 14⟩⟩ "executable")
      (Node.argumentList ⟨⟨0, 14⟩, ⟨0, 20⟩⟩ NodeList.nil) (some "executable"),
      Node.stringLiteral ⟨⟨0, 4⟩, ⟨0, 9⟩⟩ "света",
      ⟨⟨0, 0⟩, ⟨0, 9⟩⟩, ⟨⟨0, 0⟩, ⟨0, 1⟩⟩, "=", ?_, by simp [extractVariablename]⟩
    intro h
    exact Node.noConfusion h

theorem digitVal_hexDigitChar (d : Nat) (h : d < 16) :
    digitVal (hexDigitChar d) = some d := by
  interval_cases d <;> decide

theorem hexDigitChar_ne_marker (d : Nat) (h : d < 10) :
    hexDigitChar d ≠ 'x' ∧ hexDigitChar d ≠ 'o' ∧ hexDigitChar d ≠ 'b' := by
  interval_cases d <;> decide

theorem toDigitsAux_mem_lt (b : Nat) (hb : 2 ≤ b) :
    ∀ fuel v d, d ∈ toDigitsAux b fuel v → d < b := by
  intro fuel
  induction fuel with
  | zero => intro v d hd; simp [toDigitsAux] at hd
  | succ fuel ih =>
    intro v d hd
    by_cases hv : v = 0
    · simp [toDigitsAux, hv] at hd
    · simp only [toDigitsAux, if_neg hv, List.mem_append, List.mem_singleton] at hd
      rcases hd with hd | hd
      · exact ih _ _ hd
      · subst hd
        exact Nat.mod_lt _ (by omega)

theorem toBaseDigits_mem_lt (b : Nat) (hb : 2 ≤ b) (v d : Nat)
    (hd : d ∈ toBaseDigits b v) : d < b := by
  by_cases hv : v = 0
  · simp [toBaseDigits, hv] at hd
    omega
  · simp only [toBaseDigits, if_neg hv] at hd
    exact toDigitsAux_mem_lt b hb v v d hd

theorem toDigitsAux_ne_nil (b v fuel : Nat) (hv : v ≠ 0) (hf : fuel ≠ 0) :
    toDigitsAux b fuel v ≠ [] := by
  cases fuel with
  | zero => omega
  | succ fuel => simp [toDigitsAux, hv]

theorem toBaseDigits_ne_nil (b v : Nat) : toBaseDigits b v ≠ [] := by
  by_cases hv : v = 0
  · simp [toBaseDigits, hv]
  · simp only [toBaseDigits, if_neg hv]
    exact toDigitsAux_ne_nil b v v hv hv

theorem toDigitsAux_foldl (b : Nat) (hb : 2 ≤ b) :
    ∀ fuel v acc, v ≤ fuel →
      List.foldl (fun a d => a * b + d) acc (toDigitsAux b fuel v)
        = acc * b ^ (toDigitsAux b fuel v).length + v := by
  intro fuel
  induction fuel with
  | zero =>
    intro v acc hv
    have : v = 0 := by omega
    simp [toDigitsAux, this]
  | succ fuel ih =>
    intro v acc hv
    by_cases hv0 : v = 0
    · simp [toDigitsAux, hv0]
    · have hlt : v / b < v := Nat.div_lt_self (by omega) (by omega)
      have hle : v / b ≤ fuel := by omega
      simp only [toDigitsAux, if_neg hv0, List.foldl_append, List.foldl_cons,
        List.foldl_nil, List.length_append, List.length_cons, List.length_nil]
      rw [ih (v / b) acc hle]
      have hmod : b * (v / b) + v % b = v := Nat.div_add_mod v b
      ring_nf
      omega

theorem foldl_digitStep_map (b : Nat) (hb16 : b ≤ 16) :
    ∀ ds acc, (∀ d ∈ ds, d < b) →
      List.foldl (digitStep b) (some acc) (ds.map hexDigitChar)
        = some (List.foldl (fun a d => a * b + d) acc ds) := by
  intro ds
  induction ds with
  | nil => intro acc _; simp
  | cons d ds ih =>
    intro acc h
    have hd : d < b := h d (by simp)
    have hstep : digitStep b (some acc) (hexDigitChar d) = some (acc * b + d) := by
      simp [digitStep, digitVal_hexDigitChar d (by omega), hd]
    simp only [List.map_cons, List.foldl_cons, hstep]
    exact ih (acc * b + d) fun x hx => h x (by simp [hx])

theorem parse_toBaseDigits (b v : Nat) (hb : 2 ≤ b) (hb16 : b ≤ 16) :
    parseDigitsChars b ((toBaseDigits b v).map hexDigitChar) = some v := by
  have hmem : ∀ d ∈ toBaseDigits b v, d < b := fun d hd => toBaseDigits_mem_lt b hb v d hd
  rw [parseDigitsChars, foldl_digitStep_map b hb16 _ 0 hmem]
  by_cases hv : v = 0
  · simp [toBaseDigits, hv]
  · simp only [toBaseDigits, if_neg hv]
    rw [toDigitsAux_foldl b hb v v 0 (le_refl v)]
    simp

theorem parseIntegerLiteral_hex (v : Nat) :
    parseIntegerLiteral ("0x" ++ renderInBase 16 v) = some v := by
  have hl : ("0x" ++ renderInBase 16 v).toList
      = '0' :: 'x' :: (toBaseDigits 16 v).map hexDigitChar := rfl
  rw [parseIntegerLiteral, hl]
  cases hcs : (toBaseDigits 16 v).map hexDigitChar with
  | nil => exact absurd (List.map_eq_nil_iff.mp hcs) (toBaseDigits_ne_nil 16 v)
  | cons c cs =>
    rw [show parseIntChars ('0' :: 'x' :: c :: cs) = parseDigitsChars 16 (c :: cs) from by
      simp [parseIntChars]]
    rw [← hcs]
    exact parse_toBaseDigits 16 v (by omega) (by omega)

theorem parseIntegerLiteral_octal (v : Nat) :
    parseIntegerLiteral ("0o" ++ renderInBase 8 v) = some v := by
  have hl : ("0o" ++ renderInBase 8 v).toList
      = '0' :: 'o' :: (toBaseDigits 8 v).map hexDigitChar := rfl
  rw [parseIntegerLiteral, hl]
  cases hcs : (toBaseDigits 8 v).map hexDigitChar with
  | nil => exact absurd (List.map_eq_nil_iff.mp hcs) (toBaseDigits_ne_nil 8 v)
  | cons c cs =>
    rw [show parseIntChars ('0' :: 'o' :: c :: cs) = parseDigitsChars 8 (c :: cs) from by
      simp [parseIntChars]]
    rw [← hcs]
    exact parse_toBaseDigits 8 v (by omega) (by omega)

theorem parseIntegerLiteral_binary (v : Nat) :
    parseIntegerLiteral ("0b" ++ renderInBase 2 v) = some v := by
  have hl : ("0b" ++ renderInBase 2 v).toList
      = '0' :: 'b' :: (toBaseDigits 2 v).map hexDigitChar := rfl
  rw [parseIntegerLiteral, hl]
  cases hcs : (toBaseDigits 2 v).map hexDigitChar with
  | nil => exact absurd (List.map_eq_nil_iff.mp hcs) (toBaseDigits_ne_nil 2 v)
  | cons c cs =>
    rw [show parseIntChars ('0' :: 'b' :: c :: cs) = parseDigitsChars 2 (c :: cs) from by
      simp [parseIntChars]]
    rw [← hcs]
    exact parse_toBaseDigits 2 v (by omega) (by omega)

theorem parseIntegerLiteral_decimal (v : Nat) :
    parseIntegerLiteral (renderInBase 10 v) = some v := by
  have hl : (renderInBase 10 v).toList = (toBaseDigits 10 v).map hexDigitChar := rfl
  rw [parseIntegerLiteral, hl]
  cases hcs : toBaseDigits 10 v with
  | nil => exact absurd hcs (toBaseDigits_ne_nil 10 v)
  | cons d ds =>
    cases ds with
    | nil =>
      have h := parse_toBaseDigits 10 v (by omega) (by omega)
      rw [hcs] at h
      simp only [List.map_cons, List.map_nil] at h ⊢
      rw [show parseIntChars [hexDigitChar d] = parseDigitsChars 10 [hexDigitChar d] from by
        simp [parseIntChars]]
      exact h
    | cons d1 ds1 =>
      have hd1 : d1 < 10 := toBaseDigits_mem_lt 10 (by omega) v d1 (by rw [hcs]; simp)
      obtain ⟨hx, ho, hb2⟩ := hexDigitChar_ne_marker d1 hd1
      have h := parse_toBaseDigits 10 v (by omega) (by omega)
      rw [hcs] at h
      simp only [List.map_cons] at h ⊢
      rw [show parseIntChars (hexDigitChar d :: hexDigitChar d1 :: ds1.map hexDigitChar)
          = parseDigitsChars 10 (hexDigitChar d :: hexDigitChar d1 :: ds1.map hexDigitChar) from by
        simp [parseIntChars, hx, ho, hb2]]
      exact h

/-- C3: every base-conversion action emitted for an in-range integer
literal with parsed value `v` carries an edit whose replacement text, when
parsed back as an integer literal, denotes exactly `v`, for each target
textual base offered. -/
theorem integerBaseAction_roundtrip (req nodeLoc : LSPRange) (uri text : String)
    (v : Nat) (a : CodeAction) (e : TextEdit)
    (hr : inRange req nodeLoc = true)
    (ha : a ∈ makeIntegerToBaseAction uri nodeLoc v text)
    (he : e ∈ a.edits) :
    parseIntegerLiteral e.newText = some v := by
  simp only [makeIntegerToBaseAction, List.mem_map, List.mem_filter] at ha
  obtain ⟨bv, ⟨hbv, _⟩, rfl⟩ := ha
  simp only [baseVariants, List.mem_cons, List.not_mem_nil, or_false] at hbv
  have hdec : ∀ s : String, ("" ++ s) = s := fun s => rfl
  rcases hbv with h | h | h | h <;> subst h <;>
    simp only [makeActionForBase, List.mem_singleton] at he <;> subst he
  · rw [hdec]
    exact parseIntegerLiteral_decimal v
  · exact parseIntegerLiteral_hex v
  · exact parseIntegerLiteral_octal v
  · exact parseIntegerLiteral_binary v

/-- Witness for `integerBaseAction_roundtrip` at the literal `42` converted
to hexadecimal. -/
theorem integerBaseAction_roundtrip_witness :
    parseIntegerLiteral "0x2a" = some 42 := by
  have h := integerBaseAction_roundtrip ⟨⟨0, 0⟩, ⟨0, 2⟩⟩ ⟨⟨0, 0⟩, ⟨0, 2⟩⟩ "file:///b" "42" 42
      (makeActionForBase "file:///b" ⟨⟨0, 0⟩, ⟨0, 2⟩⟩ "Convert to hexadecimal literal" "0x"
        (renderInBase 16 42))
      ⟨⟨⟨0, 0⟩, ⟨0, 2⟩⟩, "0x" ++ renderInBase 16 42⟩
      (by decide) (by decide) (by decide)
  have hs : ("0x" ++ renderInBase 16 42) = "0x2a" := by decide
  rw [← hs]
  exact h

/-- C5: `inRange` holds exactly when the node's span overlaps the request
range — full containment of the range, partial overlap, or containment in
the range — and fails on disjoint spans; a node starting exactly at the
range's end is excluded, while a node whose span equals a non-empty range
is included. -/
theorem inRange_spec (req nodeLoc : LSPRange) :
    (inRange req nodeLoc = true ↔ rangeDisjoint nodeLoc req = false)
    ∧ (rangeContains nodeLoc req = true → posLt req.start req.endPos = true →
        inRange req nodeLoc = true)
    ∧ (rangeContains req nodeLoc = true → posLt nodeLoc.start nodeLoc.endPos = true →
        inRange req nodeLoc = true)
    ∧ (rangeDisjoint nodeLoc req = true → inRange req nodeLoc = false)
    ∧ (nodeLoc.start = req.endPos → inRange req nodeLoc = false)
    ∧ (nodeLoc = req → posLt req.start req.endPos = true → inRange req nodeLoc = true) := by
  obtain ⟨⟨nsl, nsc⟩, ⟨nel, nec⟩⟩ := nodeLoc
  obtain ⟨⟨rsl, rsc⟩, ⟨rel, rec2⟩⟩ := req
  refine ⟨?_, ?_, ?_, ?_, ?_, ?_⟩ <;>
    simp only [inRange, rangeDisjoint, rangeContains, Bool.and_eq_true, Bool.or_eq_true,
      Bool.and_eq_false_iff, Bool.or_eq_false_iff, posLt_iff, posLe_iff, posLt_false_iff,
      posLe_false_iff, LSPRange.mk.injEq, LSPPosition.mk.injEq, and_imp] <;>
    omega

/-- Witness for `inRange_spec`: a node starting exactly at the range's end
is excluded; a node whose span equals the non-empty range is included. -/
theorem inRange_spec_witness :
    inRange ⟨⟨0, 0⟩, ⟨0, 5⟩⟩ ⟨⟨0, 5⟩, ⟨0, 9⟩⟩ = false
    ∧ inRange ⟨⟨0, 0⟩, ⟨0, 5⟩⟩ ⟨⟨0, 0⟩, ⟨0, 5⟩⟩ = true := by
  constructor
  · exact (inRange_spec ⟨⟨0, 0⟩, ⟨0, 5⟩⟩ ⟨⟨0, 5⟩, ⟨0, 9⟩⟩).2.2.2.2.1 rfl
  · exact (inRange_spec ⟨⟨0, 0⟩, ⟨0, 5⟩⟩ ⟨⟨0, 0⟩, ⟨0, 5⟩⟩).2.2.2.2.2 rfl (by decide)

/-- C4: an in-range call resolved to `static_library` or `shared_library`
yields exactly one convert-to-generic action, and on the call rewritten by
that action's edit — the identifier now reads `library` — the recognizer
yields no convert-to-generic action. -/
theorem libraryToGeneric_once_then_none
    (req : LSPRange) (uri : String) (loc idLoc : LSPRange) (idName : String)
    (args : Node) (fname : String)
    (hin : inRange req loc = true)
    (hf : fname = "static_library" ∨ fname = "shared_library") :
    (makeLibraryToGenericAction uri
        (Node.functionExpression loc (Node.idExpression idLoc idName) args (some fname))).length
      = 1
    ∧ makeLibraryToGenericAction uri
        (applyLibraryToGeneric
          (Node.functionExpression loc (Node.idExpression idLoc idName) args (some fname)))
      = [] := by
  rcases hf with rfl | rfl <;>
    simp [makeLibraryToGenericAction, applyLibraryToGeneric]

/-- Witness for `libraryToGeneric_once_then_none` at the sample
`static_library` call. -/
theorem libraryToGeneric_once_then_none_witness :
    (makeLibraryToGenericAction "file:///meson.build" sampleStaticLibCall).length = 1
    ∧ makeLibraryToGenericAction "file:///meson.build"
        (applyLibraryToGeneric sampleStaticLibCall) = [] := by
  exact libraryToGeneric_once_then_none ⟨⟨0, 0⟩, ⟨0, 30⟩⟩ "file:///meson.build"
    ⟨⟨0, 4⟩, ⟨0, 30⟩⟩ ⟨⟨0, 4⟩, ⟨0, 18⟩⟩ "static_library"
    (Node.argumentList ⟨⟨0, 18⟩, ⟨0, 30⟩⟩ NodeList.nil) "static_library"
    (by decide) (Or.inl rfl)

/-- C6: when the enclosing scope already binds the conventionally-derived
`<name>_dep` counterpart to a `declare_dependency` call, the
declare-dependency recognizer emits no action for the eligible
library-creating assignment. -/
theorem declareDependency_no_duplicate
    (uri : String) (scope : NodeList) (loc : LSPRange) (idExpr args : Node)
    (fname : String) (parent : Option Node) (varname : String)
    (hlib : createsLibrary ⟨fname⟩ = true)
    (hvar : extractVariablename (Node.functionExpression loc idExpr args (some fname)) parent
      = some varname)
    (hdup : scopeHasDeclareDependency scope (varname ++ "_dep") = true) :
    makeDeclareDependencyAction uri scope
      (Node.functionExpression loc idExpr args (some fname)) parent = [] := by
  simp [makeDeclareDependencyAction, hlib, hvar, hdup]

/-- Witness for `declareDependency_no_duplicate` at the sample assignment
`mylib = static_library(…)` in a scope already holding `mylib_dep`. -/
theorem declareDependency_no_duplicate_witness :
    makeDeclareDependencyAction "file:///meson.build" sampleDepScope
      (Node.functionExpression ⟨⟨0, 4⟩, ⟨0, 30⟩⟩
        (Node.idExpression ⟨⟨0, 4⟩, ⟨0, 18⟩⟩ "static_library")
        (Node.argumentList ⟨⟨0, 18⟩, ⟨0, 30⟩⟩ NodeList.nil) (some "static_library"))
      (some sampleAssignment) = [] := by
  exact declareDependency_no_duplicate "file:///meson.build" sampleDepScope
    ⟨⟨0, 4⟩, ⟨0, 30⟩⟩ (Node.idExpression ⟨⟨0, 4⟩, ⟨0, 18⟩⟩ "static_library")
    (Node.argumentList ⟨⟨0, 18⟩, ⟨0, 30⟩⟩ NodeList.nil) "static_library"
    (some sampleAssignment) "mylib" (by decide)
    (by simp [sampleAssignment, extractVariablename]) (by decide)

/-- C7: an invalid range, uri or tree argument is rejected with the
explicit invalid-request signal before any traversal, and such a request
never instead returns an (even empty) action sequence. -/
theorem invalidRequest_rejected (range : LSPRange) (uri : String)
    (tree : Option MesonTree) (root : Node)
    (hinv : validRequest range uri tree = false) :
    collectCodeActions range uri tree root = Except.error "invalid request"
    ∧ ∀ acts : List CodeAction, collectCodeActions range uri tree root ≠ Except.ok acts := by
  cases tree with
  | none =>
    refine ⟨rfl, ?_⟩
    intro acts h
    exact Except.noConfusion h
  | some t =>
    have hcond : (posLe range.start range.endPos && uri != "") = false := by
      simpa [validRequest] using hinv
    refine ⟨?_, ?_⟩
    · simp [collectCodeActions, hcond]
    · intro acts h
      simp [collectCodeActions, hcond] at h

/-- Witness for `invalidRequest_rejected`: a request with no tree is
rejected. -/
theorem invalidRequest_rejected_witness :
    collectCodeActions ⟨⟨0, 0⟩, ⟨0, 5⟩⟩ "file:///meson.build" none
      (Node.breakNode ⟨⟨0, 0⟩, ⟨0, 5⟩⟩) = Except.error "invalid request" := by
  exact (invalidRequest_rejected ⟨⟨0, 0⟩, ⟨0, 5⟩⟩ "file:///meson.build" none
    (Node.breakNode ⟨⟨0, 0⟩, ⟨0, 5⟩⟩) (by decide)).1

mutual
theorem visitNode_frame (vis : CodeActionVisitor) (parent : Option Node) (scope : NodeList)
    (n : Node) :
    (visitNode vis parent scope n).range = vis.range
    ∧ (visitNode vis parent scope n).uri = vis.uri
    ∧ (visitNode vis parent scope n).tree = vis.tree := by
  cases n with
  | argumentList loc args => simp [visitNode, visitList_frame _ _ _ args]
  | arrayLiteral loc args => simp [visitNode, visitList_frame _ _ _ args]
  | assignmentStatement loc lhs rhs op =>
      simp [visitNode, visitNode_frame _ _ _ lhs, visitNode_frame _ _ _ rhs]
  | binaryExpression loc lhs rhs op =>
      simp [visitNode, visitNode_frame _ _ _ lhs, visitNode_frame _ _ _ rhs]
  | booleanLiteral loc v => simp [visitNode]
  | buildDefinition loc stmts => simp [visitNode, visitList_frame _ _ _ stmts]
  | conditionalExpression loc c t f =>
      simp [visitNode, visitNode_frame _ _ _ c, visitNode_frame _ _ _ t,
        visitNode_frame _ _ _ f]
  | dictionaryLiteral loc values => simp [visitNode, visitList_frame _ _ _ values]
  | functionExpression loc i a f =>
      simp [visitNode, visitNode_frame _ _ _ i, visitNode_frame _ _ _ a]
  | idExpression loc i => simp [visitNode]
  | integerLiteral loc v t => simp [visitNode]
  | iterationStatement loc ids expr stmts =>
      simp [visitNode, visitList_frame _ _ _ ids, visitNode_frame _ _ _ expr,
        visitList_frame _ _ _ stmts]
  | keyValueItem loc k v => simp [visitNode, visitNode_frame _ _ _ k, visitNode_frame _ _ _ v]
  | keywordItem loc k v => simp [visitNode, visitNode_frame _ _ _ k, visitNode_frame _ _ _ v]
  | methodExpression loc o i a =>
      simp [visitNode, visitNode_frame _ _ _ o, visitNode_frame _ _ _ i,
        visitNode_frame _ _ _ a]
  | selectionStatement loc conds blocks =>
      simp [visitNode, visitList_frame _ _ _ conds, visitList_frame _ _ _ blocks]
  | stringLiteral loc i => simp [visitNode]
  | subscriptExpression loc o i =>
      simp [visitNode, visitNode_frame _ _ _ o, visitNode_frame _ _ _ i]
  | unaryExpression loc e o => simp [visitNode, visitNode_frame _ _ _ e]
  | errorNode loc m => simp [visitNode]
  | breakNode loc => simp [visitNode]
  | continueNode loc => simp [visitNode]
theorem visitList_frame (vis : CodeActionVisitor) (parent : Option Node) (scope : NodeList)
    (l : NodeList) :
    (visitList vis parent scope l).range = vis.range
    ∧ (visitList vis parent scope l).uri = vis.uri
    ∧ (visitList vis parent scope l).tree = vis.tree := by
  cases l with
  | nil => simp [visitList]
  | cons h t => simp [visitList, visitList_frame _ _ _ t, visitNode_frame _ _ _ h]
end

mutual
theorem visitNode_actions (vis : CodeActionVisitor) (parent : Option Node) (scope : NodeList)
    (n : Node) :
    (visitNode vis parent scope n).actions
      = vis.actions ++ (preorderCtx parent scope n).flatMap (emitEntry vis.range vis.uri) := by
  cases n with
  | argumentList loc args =>
      simp [visitNode, preorderCtx, emitEntry, visitList_actions _ _ _ args]
  | arrayLiteral loc args =>
      simp [visitNode, preorderCtx, emitEntry, visitList_actions _ _ _ args]
  | assignmentStatement loc lhs rhs op =>
      simp [visitNode, preorderCtx, emitEntry, visitNode_actions _ _ _ lhs,
        visitNode_actions _ _ _ rhs, visitNode_frame _ _ _ lhs]
  | binaryExpression loc lhs rhs op =>
      simp [visitNode, preorderCtx, emitEntry, visitNode_actions _ _ _ lhs,
        visitNode_actions _ _ _ rhs, visitNode_frame _ _ _ lhs]
  | booleanLiteral loc v => simp [visitNode, preorderCtx, emitEntry]
  | buildDefinition loc stmts =>
      simp [visitNode, preorderCtx, emitEntry, visitList_actions _ _ _ stmts]
  | conditionalExpression loc c t f =>
      simp [visitNode, preorderCtx, emitEntry, visitNode_actions _ _ _ c,
        visitNode_actions _ _ _ t, visitNode_actions _ _ _ f, visitNode_frame _ _ _ c,
        visitNode_frame _ _ _ t]
  | dictionaryLiteral loc values =>
      simp [visitNode, preorderCtx, emitEntry, visitList_actions _ _ _ values]
  | functionExpression loc i a f =>
      simp [visitNode, preorderCtx, emitEntry, visitNode_actions _ _ _ i,
        visitNode_actions _ _ _ a, visitNode_frame _ _ _ i]
  | idExpression loc i => simp [visitNode, preorderCtx, emitEntry]
  | integerLiteral loc v t => simp [visitNode, preorderCtx, emitEntry]
  | iterationStatement loc ids expr stmts =>
      simp [visitNode, preorderCtx, emitEntry, visitList_actions _ _ _ ids,
        visitNode_actions _ _ _ expr, visitList_actions _ _ _ stmts,
        visitList_frame _ _ _ ids, visitNode_frame _ _ _ expr]
  | keyValueItem loc k v =>
      simp [visitNode, preorderCtx, emitEntry, visitNode_actions _ _ _ k,
        visitNode_actions _ _ _ v, visitNode_frame _ _ _ k]
  | keywordItem loc k v =>
      simp [visitNode, preorderCtx, emitEntry, visitNode_actions _ _ _ k,
        visitNode_actions _ _ _ v, visitNode_frame _ _ _ k]
  | methodExpression loc o i a =>
      simp [visitNode, preorderCtx, emitEntry, visitNode_actions _ _ _ o,
        visitNode_actions _ _ _ i, visitNode_actions _ _ _ a, visitNode_frame _ _ _ o,
        visitNode_frame _ _ _ i]
  | selectionStatement loc conds blocks =>
      simp [visitNode, preorderCtx, emitEntry, visitList_actions _ _ _ conds,
        visitList_actions _ _ _ blocks, visitList_frame _ _ _ conds]
  | stringLiteral loc i => simp [visitNode, preorderCtx, emitEntry]
  | subscriptExpression loc o i =>
      simp [visitNode, preorderCtx, emitEntry, visitNode_actions _ _ _ o,
        visitNode_actions _ _ _ i, visitNode_frame _ _ _ o]
  | unaryExpression loc e o =>
      simp [visitNode, preorderCtx, emitEntry, visitNode_actions _ _ _ e]
  | errorNode loc m => simp [visitNode, preorderCtx, emitEntry]
  | breakNode loc => simp [visitNode, preorderCtx, emitEntry]
  | continueNode loc => simp [visitNode, preorderCtx, emitEntry]
theorem visitList_actions (vis : CodeActionVisitor) (parent : Option Node) (scope : NodeList)
    (l : NodeList) :
    (visitList vis parent scope l).actions
      = vis.actions ++ (preorderCtxList parent scope l).flatMap (emitEntry vis.range vis.uri) := by
  cases l with
  | nil => simp [visitList, preorderCtxList]
  | cons h t =>
      simp [visitList, preorderCtxList, visitList_actions _ _ _ t, visitNode_actions _ _ _ h,
        visitNode_frame _ _ _ h]
end

mutual
theorem preorderCtx_map_node (parent : Option Node) (scope : NodeList) (n : Node) :
    (preorderCtx parent scope n).map VisitEntry.node = preorder n := by
  cases n with
  | argumentList loc args => simp [preorderCtx, preorder, preorderCtxList_map_node _ _ args]
  | arrayLiteral loc args => simp [preorderCtx, preorder, preorderCtxList_map_node _ _ args]
  | assignmentStatement loc lhs rhs op =>
      simp [preorderCtx, preorder, preorderCtx_map_node _ _ lhs, preorderCtx_map_node _ _ rhs]
  | binaryExpression loc lhs rhs op =>
      simp [preorderCtx, preorder, preorderCtx_map_node _ _ lhs, preorderCtx_map_node _ _ rhs]
  | booleanLiteral loc v => simp [preorderCtx, preorder]
  | buildDefinition loc stmts => simp [preorderCtx, preorder, preorderCtxList_map_node _ _ stmts]
  | conditionalExpression loc c t f =>
      simp [preorderCtx, preorder, preorderCtx_map_node _ _ c, preorderCtx_map_node _ _ t,
        preorderCtx_map_node _ _ f]
  | dictionaryLiteral loc values =>
      simp [preorderCtx, preorder, preorderCtxList_map_node _ _ values]
  | functionExpression loc i a f =>
      simp [preorderCtx, preorder, preorderCtx_map_node _ _ i, preorderCtx_map_node _ _ a]
  | idExpression loc i => simp [preorderCtx, preorder]
  | integerLiteral loc v t => simp [preorderCtx, preorder]
  | iterationStatement loc ids expr stmts =>
      simp [preorderCtx, preorder, preorderCtxList_map_node _ _ ids,
        preorderCtx_map_node _ _ expr, preorderCtxList_map_node _ _ stmts]
  | keyValueItem loc k v =>
      simp [preorderCtx, preorder, preorderCtx_map_node _ _ k, preorderCtx_map_node _ _ v]
  | keywordItem loc k v =>
      simp [preorderCtx, preorder, preorderCtx_map_node _ _ k, preorderCtx_map_node _ _ v]
  | methodExpression loc o i a =>
      simp [preorderCtx, preorder, preorderCtx_map_node _ _ o, preorderCtx_map_node _ _ i,
        preorderCtx_map_node _ _ a]
  | selectionStatement loc conds blocks =>
      simp [preorderCtx, preorder, preorderCtxList_map_node _ _ conds,
        preorderCtxList_map_node _ _ blocks]
  | stringLiteral loc i => simp [preorderCtx, preorder]
  | subscriptExpression loc o i =>
      simp [preorderCtx, preorder, preorderCtx_map_node _ _ o, preorderCtx_map_node _ _ i]
  | unaryExpression loc e o => simp [preorderCtx, preorder, preorderCtx_map_node _ _ e]
  | errorNode loc m => simp [preorderCtx, preorder]
  | breakNode loc => simp [preorderCtx, preorder]
  | continueNode loc => simp [preorderCtx, preorder]
theorem preorderCtxList_map_node (parent : Option Node) (scope : NodeList) (l : NodeList) :
    (preorderCtxList parent scope l).map VisitEntry.node = preorderList l := by
  cases l with
  | nil => simp [preorderCtxList, preorderList]
  | cons h t =>
      simp [preorderCtxList, preorderList, preorderCtx_map_node _ _ h,
        preorderCtxList_map_node _ _ t]
end

/-- C8: a code-action collection pass writes only the visitor's own
accumulated action sequence: the stored request range, document uri and
project tree are unchanged by every visit method and helper, and the action
sequence is only appended to.  The syntax tree itself is an immutable value
of the embedding, so no visit can alter its nodes. -/
theorem visitor_only_appends_actions (vis : CodeActionVisitor) (parent : Option Node)
    (scope : NodeList) (n : Node) :
    (visitNode vis parent scope n).range = vis.range
    ∧ (visitNode vis parent scope n).uri = vis.uri
    ∧ (visitNode vis parent scope n).tree = vis.tree
    ∧ ∃ emitted, (visitNode vis parent scope n).actions = vis.actions ++ emitted := by
  obtain ⟨h1, h2, h3⟩ := visitNode_frame vis parent scope n
  exact ⟨h1, h2, h3, _, visitNode_actions vis parent scope n⟩

/-- C9: the accumulated sequence is ordered by tree-discovery order of the
deterministic pre-order walk: the result is the per-node emissions
flattened over the context-annotated pre-order enumeration, whose node
order is exactly `preorder` — so actions anchored to distinct nodes appear
in the pre-order of their nodes, not sorted by any other key. -/
theorem actions_in_preorder (vis : CodeActionVisitor) (parent : Option Node)
    (scope : NodeList) (n : Node) :
    (visitNode vis parent scope n).actions
      = vis.actions ++ (preorderCtx parent scope n).flatMap (emitEntry vis.range vis.uri)
    ∧ (preorderCtx parent scope n).map VisitEntry.node = preorder n :=
  ⟨visitNode_actions vis parent scope n, preorderCtx_map_node parent scope n⟩
